import Mathlib

/-!
Verification of the Poseidon-style hashing precompile (`stylus-precompile`).

The development shallowly embeds the Rust sources:
* `src/poseidon/core.rs` — field validation, `hash_single`, `hash_pair`,
  `hash_array` (the simplified deterministic engine with default parameters);
* `src/poseidon/interface.rs` — the selector dispatcher `poseidon_precompile`;
* `src/entrypoint.rs` — the host-contract wrapper `PoseidonPrecompile`.

`U256` values from `alloy_primitives` (the `ruint` crate) are embedded as `Nat`.
The Rust arithmetic operators `+`, `*` and the method `pow` on `U256` are
wrapping: they reduce modulo `2^256`.  The embedding makes every such wrap
explicit as `% U` with `U = 2^256`; `%` on `U256` is ordinary remainder, `^`
is bitwise xor, and comparisons are ordinary comparisons.
-/

/-- BN254 scalar field modulus, `PoseidonParams::default().modulus`
    (`src/poseidon/core.rs`). -/
def modulus : Nat :=
  21888242871839275222246405745257275088548364400416034343698204186575808495617

/-- `2^256`, the wrap-around modulus of the 256-bit `U256` type. -/
def U : Nat := 2 ^ 256

/-- `PoseidonParams::default().full_rounds` (`src/poseidon/core.rs`). -/
def full_rounds : Nat := 8

/-- `PoseidonError` from `src/errors.rs`. -/
inductive PoseidonError where
  | InvalidInputLength : Nat → PoseidonError
  | FieldElementTooLarge : Nat → PoseidonError
  | InvalidSelector : PoseidonError
  | AbiDecodeError : String → PoseidonError
deriving DecidableEq, Repr

instance {ε α : Type} [DecidableEq ε] [DecidableEq α] : DecidableEq (Except ε α) :=
  fun x y =>
    match x, y with
    | .error a, .error b =>
      if h : a = b then .isTrue (by rw [h]) else
        .isFalse (fun hc => h (by cases hc; rfl))
    | .ok a, .ok b =>
      if h : a = b then .isTrue (by rw [h]) else
        .isFalse (fun hc => h (by cases hc; rfl))
    | .error _, .ok _ => .isFalse (fun hc => by cases hc)
    | .ok _, .error _ => .isFalse (fun hc => by cases hc)

/-- `PoseidonHash::validate_field_element` (`src/poseidon/core.rs`):
    rejects any element `≥ modulus`, returns the element unchanged otherwise. -/
def PoseidonHash.validate_field_element (element : Nat) : Except PoseidonError Nat :=
  if modulus ≤ element then .error (.FieldElementTooLarge element)
  else .ok element

/-- One iteration of the loop body of `PoseidonHash::hash_single`
    (`src/poseidon/core.rs`, lines 109–119).  `input` is the original input of
    `hash_single`, `result` the evolving state, `i` the round index.
    `U256::pow`, `+` and `*` wrap modulo `2^256` (hence the `% U`); each step
    then reduces modulo `modulus` exactly as in the source. -/
def PoseidonHash.poseidonRound (input : Nat) (result : Nat) (i : Nat) : Nat :=
  let round_constant := (2 ^ (i + 1) % U) ^^^ input
  let result := ((result + round_constant) % U) % modulus
  let temp := result
  let result := ((temp * temp) % U) % modulus
  let result := ((result * result) % U) % modulus
  ((result * temp) % U) % modulus

/-- The value computed by the round loop of `PoseidonHash::hash_single`
    on an already validated input. -/
def PoseidonHash.hashSingleVal (input : Nat) : Nat :=
  (List.range full_rounds).foldl (PoseidonHash.poseidonRound input) input

/-- `PoseidonHash::hash_single` (`src/poseidon/core.rs`): validate, then run
    the 8-round loop. -/
def PoseidonHash.hash_single (input : Nat) : Except PoseidonError Nat :=
  match PoseidonHash.validate_field_element input with
  | .error e => .error e
  | .ok _ => .ok (PoseidonHash.hashSingleVal input)

/-- The value computed by `PoseidonHash::hash_pair` on validated inputs:
    `combined = (left + right + 1) % modulus` (the wrapping additions cannot
    overflow here but are kept explicit), `intermediate = hashSingleVal combined`, then the remixing `left*3 + right*5 + intermediate` with each
    wrapping operation reduced `% U`, reduced `% modulus`, and hashed again. -/
def PoseidonHash.hashPairVal (left right : Nat) : Nat :=
  let combined := (((left + right) % U + 1) % U) % modulus
  let intermediate := PoseidonHash.hashSingleVal combined
  let remixed := ((((left * 3) % U + (right * 5) % U) % U + intermediate) % U) % modulus
  PoseidonHash.hashSingleVal remixed

/-- `PoseidonHash::hash_pair` (`src/poseidon/core.rs`, lines 141–154). -/
def PoseidonHash.hash_pair (left right : Nat) : Except PoseidonError Nat :=
  match PoseidonHash.validate_field_element left with
  | .error e => .error e
  | .ok _ =>
    match PoseidonHash.validate_field_element right with
    | .error e => .error e
    | .ok _ =>
      let combined := (((left + right) % U + 1) % U) % modulus
      match PoseidonHash.hash_single combined with
      | .error e => .error e
      | .ok intermediate =>
        let remixed :=
          ((((left * 3) % U + (right * 5) % U) % U + intermediate) % U) % modulus
        PoseidonHash.hash_single remixed

/-- The validation loop of `PoseidonHash::hash_array`
    (`src/poseidon/core.rs`, lines 180–182): validate every element in order,
    propagating the first failure. -/
def PoseidonHash.validateAll : List Nat → Except PoseidonError Unit
  | [] => .ok ()
  | x :: xs =>
    match PoseidonHash.validate_field_element x with
    | .error e => .error e
    | .ok _ => PoseidonHash.validateAll xs

/-- The folding loop of `PoseidonHash::hash_array`
    (`src/poseidon/core.rs`, lines 185–188): left-fold `hash_pair` over the
    tail, starting from the first element. -/
def PoseidonHash.chainPairs (acc : Nat) : List Nat → Except PoseidonError Nat
  | [] => .ok acc
  | x :: xs =>
    match PoseidonHash.hash_pair acc x with
    | .error e => .error e
    | .ok r => PoseidonHash.chainPairs r xs

/-- `PoseidonHash::hash_array` (`src/poseidon/core.rs`, lines 174–191). -/
def PoseidonHash.hash_array (inputs : List Nat) : Except PoseidonError Nat :=
  match inputs with
  | [] => .error (.InvalidInputLength 0)
  | x :: xs =>
    match PoseidonHash.validateAll (x :: xs) with
    | .error e => .error e
    | .ok _ => PoseidonHash.chainPairs x xs

/-- `PoseidonPrecompile::hash` (`src/entrypoint.rs`, lines 17–25): host-contract
    wrapper that substitutes zero for any error of `hash_single`. -/
def PoseidonPrecompile.hash (input : Nat) : Nat :=
  match PoseidonHash.hash_single input with
  | .ok result => result
  | .error _ => 0

/-- `PoseidonPrecompile::hash_pair` (`src/entrypoint.rs`, lines 28–36):
    host-contract wrapper that substitutes zero for any error of `hash_pair`. -/
def PoseidonPrecompile.hash_pair (a b : Nat) : Nat :=
  match PoseidonHash.hash_pair a b with
  | .ok result => result
  | .error _ => 0

/-- The 4-byte selector of `poseidon1(uint256)`: the first four bytes of the
    keccak-256 hash of the canonical signature, as produced by the `sol!`
    macro in `src/poseidon/interface.rs` (`0x5727d155`). -/
def SELECTOR_POSEIDON1 : List Nat := [0x57, 0x27, 0xd1, 0x55]

/-- The 4-byte selector of `poseidon2(uint256,uint256)` (`0x6e9c433b`). -/
def SELECTOR_POSEIDON2 : List Nat := [0x6e, 0x9c, 0x43, 0x3b]

/-- The 4-byte selector of `poseidonN(uint256[])` (`0xf653802b`). -/
def SELECTOR_POSEIDONN : List Nat := [0xf6, 0x53, 0x80, 0x2b]

/-- Big-endian interpretation of a byte list as a natural number. -/
def beNat (bs : List Nat) : Nat := bs.foldl (fun acc b => acc * 256 + b) 0

/-- The 32-byte big-endian word encoding of a 256-bit value: the `abi_encode`
    of a single `uint256` return value in `src/poseidon/interface.rs`. -/
def beBytes32 (n : Nat) : List Nat :=
  (List.range 32).map (fun i => n / 256 ^ (31 - i) % 256)

/-- Model of alloy's `poseidon1Call::abi_decode(data, true)`: with validation
    on, a single static `uint256` argument is exactly one 32-byte word. -/
def decodeUint256 (data : List Nat) : Except String Nat :=
  if data.length = 32 then .ok (beNat data)
  else .error "invalid uint256 argument encoding"

/-- Model of alloy's `poseidon2Call::abi_decode(data, true)`: two static
    `uint256` arguments occupy exactly two 32-byte words. -/
def decodeUintPair (data : List Nat) : Except String (Nat × Nat) :=
  if data.length = 64 then .ok (beNat (data.take 32), beNat (data.drop 32))
  else .error "invalid uint256 pair argument encoding"

/-- Splits `count` consecutive 32-byte words into their big-endian values. -/
def splitWords : Nat → List Nat → List Nat
  | 0, _ => []
  | count + 1, data => beNat (data.take 32) :: splitWords count (data.drop 32)

/-- Model of alloy's `poseidonNCall::abi_decode(data, true)`: a dynamic
    `uint256[]` argument is an offset word (which must be `0x20`), a length
    word `n`, and exactly `n` 32-byte element words. -/
def decodeUintArray (data : List Nat) : Except String (List Nat) :=
  if 64 ≤ data.length ∧ beNat (data.take 32) = 32 ∧
      data.length = 64 + 32 * beNat ((data.drop 32).take 32) then
    .ok (splitWords (beNat ((data.drop 32).take 32)) (data.drop 64))
  else .error "invalid uint256 array argument encoding"

/-- `poseidon_precompile` (`src/poseidon/interface.rs`, lines 29–69): checks
    the buffer length, matches the 4-byte selector against the three fixed
    selectors in order, decodes the arguments, routes to the matching hasher,
    and ABI-encodes the result as a 32-byte word. -/
def poseidon_precompile (input : List Nat) : Except PoseidonError (List Nat) :=
  if input.length < 4 then .error .InvalidSelector
  else
    let selector := input.take 4
    let call_data := input.drop 4
    if selector = SELECTOR_POSEIDON1 then
      match decodeUint256 call_data with
      | .error e => .error (.AbiDecodeError e)
      | .ok x => (PoseidonHash.hash_single x).map beBytes32
    else if selector = SELECTOR_POSEIDON2 then
      match decodeUintPair call_data with
      | .error e => .error (.AbiDecodeError e)
      | .ok (l, r) => (PoseidonHash.hash_pair l r).map beBytes32
    else if selector = SELECTOR_POSEIDONN then
      match decodeUintArray call_data with
      | .error e => .error (.AbiDecodeError e)
      | .ok xs => (PoseidonHash.hash_array xs).map beBytes32
    else .error .InvalidSelector

/-- The round step of the §4.2 reference computation as the specification
    words it, with exact (arbitrary-width) intermediate products: add the
    round constant `(2^(i+1)) XOR x` modulo `p`, then raise to the 5th power
    modulo `p` via two squarings and one multiply. -/
def specRoundWide (x : Nat) (result : Nat) (i : Nat) : Nat :=
  let round_constant := (2 ^ (i + 1)) ^^^ x
  let result := (result + round_constant) % modulus
  let t := result
  let result := (t * t) % modulus
  let result := (result * result) % modulus
  (result * t) % modulus

/-- The §4.2 reference computation with exact intermediates: starting from
    `result = x`, apply `specRoundWide` for rounds `0 .. 8`. -/
def hashSingleSpecWide (x : Nat) : Nat :=
  (List.range 8).foldl (specRoundWide x) x

/-- The §4.2 round step amended to 256-bit wrapping arithmetic: every
    addition, multiplication and power is reduced modulo `2^256` (as `U256`
    arithmetic does) before the reduction modulo `p`. -/
def specRoundWrap (x : Nat) (result : Nat) (i : Nat) : Nat :=
  let round_constant := (2 ^ (i + 1) % U) ^^^ x
  let result := ((result + round_constant) % U) % modulus
  let t := result
  let result := ((t * t) % U) % modulus
  let result := ((result * result) % U) % modulus
  ((result * t) % U) % modulus

/-- The §4.2 loop with wrapping 256-bit arithmetic, written as a recursion on
    the number of rounds performed: `specPermWrap x n` is the state after
    rounds `0 .. n`. -/
def specPermWrap (x : Nat) : Nat → Nat
  | 0 => x
  | n + 1 => specRoundWrap x (specPermWrap x n) n

/-! ## Helper lemmas -/

lemma modulus_pos : 0 < modulus := by decide

lemma validate_ok {x : Nat} (h : x < modulus) :
    PoseidonHash.validate_field_element x = .ok x := by
  simp [PoseidonHash.validate_field_element, Nat.not_le.mpr h]

lemma validate_err {x : Nat} (h : modulus ≤ x) :
    PoseidonHash.validate_field_element x = .error (.FieldElementTooLarge x) := by
  simp [PoseidonHash.validate_field_element, h]

lemma hash_single_ok {x : Nat} (h : x < modulus) :
    PoseidonHash.hash_single x = .ok (PoseidonHash.hashSingleVal x) := by
  simp [PoseidonHash.hash_single, validate_ok h]

lemma hash_single_err {x : Nat} (h : modulus ≤ x) :
    PoseidonHash.hash_single x = .error (.FieldElementTooLarge x) := by
  simp [PoseidonHash.hash_single, validate_err h]

lemma foldl_round_eq_specPermWrap (x : Nat) :
    ∀ n, (List.range n).foldl (PoseidonHash.poseidonRound x) x = specPermWrap x n := by
  intro n
  induction n with
  | zero => rfl
  | succ n ih =>
    rw [List.range_succ, List.foldl_append, ih]
    rfl

lemma hashSingleVal_eq_specPermWrap (x : Nat) :
    PoseidonHash.hashSingleVal x = specPermWrap x full_rounds :=
  foldl_round_eq_specPermWrap x full_rounds

lemma specPermWrap_succ_lt (x n : Nat) : specPermWrap x (n + 1) < modulus := by
  show specRoundWrap x (specPermWrap x n) n < modulus
  unfold specRoundWrap
  exact Nat.mod_lt _ modulus_pos

lemma hashSingleVal_lt (x : Nat) : PoseidonHash.hashSingleVal x < modulus := by
  rw [hashSingleVal_eq_specPermWrap]
  exact specPermWrap_succ_lt x 7

lemma hash_single_mod_ok (a : Nat) :
    PoseidonHash.hash_single (a % modulus) =
      .ok (PoseidonHash.hashSingleVal (a % modulus)) :=
  hash_single_ok (Nat.mod_lt _ modulus_pos)

lemma hash_pair_ok {l r : Nat} (hl : l < modulus) (hr : r < modulus) :
    PoseidonHash.hash_pair l r = .ok (PoseidonHash.hashPairVal l r) := by
  simp [PoseidonHash.hash_pair, PoseidonHash.hashPairVal, validate_ok hl, validate_ok hr,
    hash_single_mod_ok]

lemma hashPairVal_lt (l r : Nat) : PoseidonHash.hashPairVal l r < modulus := by
  unfold PoseidonHash.hashPairVal
  exact hashSingleVal_lt _

lemma hash_pair_err_left {l : Nat} (r : Nat) (hl : modulus ≤ l) :
    PoseidonHash.hash_pair l r = .error (.FieldElementTooLarge l) := by
  simp [PoseidonHash.hash_pair, validate_err hl]

lemma hash_pair_err_right {l r : Nat} (hl : l < modulus) (hr : modulus ≤ r) :
    PoseidonHash.hash_pair l r = .error (.FieldElementTooLarge r) := by
  simp [PoseidonHash.hash_pair, validate_ok hl, validate_err hr]

lemma chainPairs_ok_lt :
    ∀ (ys : List Nat) (acc h : Nat), acc < modulus →
      PoseidonHash.chainPairs acc ys = .ok h → h < modulus := by
  intro ys
  induction ys with
  | nil =>
    intro acc h hacc hok
    simp [PoseidonHash.chainPairs] at hok
    omega
  | cons y ys ih =>
    intro acc h hacc hok
    by_cases hy : modulus ≤ y
    · simp [PoseidonHash.chainPairs, hash_pair_err_right hacc hy] at hok
    · rw [show PoseidonHash.chainPairs acc (y :: ys) =
          match PoseidonHash.hash_pair acc y with
          | .error e => .error e
          | .ok r => PoseidonHash.chainPairs r ys from rfl,
        hash_pair_ok hacc (Nat.lt_of_not_le hy)] at hok
      exact ih _ h (hashPairVal_lt _ _) hok

lemma validateAll_err_find :
    ∀ (xs : List Nat) (x : Nat),
      xs.find? (fun y => decide (modulus ≤ y)) = some x →
      PoseidonHash.validateAll xs = .error (.FieldElementTooLarge x) := by
  intro xs
  induction xs with
  | nil => intro x h; simp [List.find?] at h
  | cons y ys ih =>
    intro x h
    by_cases hy : modulus ≤ y
    · simp [List.find?, hy] at h
      subst h
      simp [PoseidonHash.validateAll, validate_err hy]
    · simp [List.find?, hy] at h
      simp [PoseidonHash.validateAll, validate_ok (Nat.lt_of_not_le hy), ih x h]

lemma wrap_sum_eq (l r i : Nat) :
    ((((l * 3) % U + (r * 5) % U) % U + i) % U) =
      (3 * l + 5 * r + i) % U := by
  rw [Nat.mod_add_mod]
  have h : (l * 3 % U + r * 5 % U + i) % U = (l * 3 + r * 5 + i) % U :=
    ((Nat.mod_modEq (l * 3) U).add (Nat.mod_modEq (r * 5) U)).add_right i
  rw [h, Nat.mul_comm l 3, Nat.mul_comm r 5]

lemma combined_eq {l r : Nat} (hl : l < modulus) (hr : r < modulus) :
    (((l + r) % U + 1) % U) % modulus = (l + r + 1) % modulus := by
  have hU : modulus + modulus + 1 < U := by decide
  have h1 : l + r < U := by omega
  have h2 : l + r + 1 < U := by omega
  rw [Nat.mod_eq_of_lt h1, Nat.mod_eq_of_lt h2]

/-! ## Claim theorems -/

/-- C1 (counterexample): the claim as stated is false — at the valid input
    `42`, `hash_single` does not return the §4.2 reference computation with
    exact (wide) intermediate products, because the `U256` products wrap
    modulo `2^256` before the reduction modulo `p`. -/
theorem hash_single_42_differs_from_wide_reference :
    PoseidonHash.hash_single 42 ≠ Except.ok (hashSingleSpecWide 42) := by decide

/-- C1 (amended): for every input `x < p`, `hash_single x` returns `Ok` of the
    §4.2 round loop in which every addition, multiplication and power is first
    reduced modulo `2^256` (the wrapping `U256` arithmetic) and then modulo
    `p`; the rounds `0 .. full_rounds` are applied in order starting from
    `result = x` with round constant `(2^(i+1)) XOR x`. -/
theorem hash_single_eq_wrapping_reference (x : Nat) (hx : x < modulus) :
    PoseidonHash.hash_single x = Except.ok (specPermWrap x full_rounds) := by
  rw [hash_single_ok hx, hashSingleVal_eq_specPermWrap]

/-- C1 witness: the amended theorem instantiated at `x = 42`. -/
theorem hash_single_eq_wrapping_reference_witness :
    42 < modulus ∧
      PoseidonHash.hash_single 42 = Except.ok (specPermWrap 42 full_rounds) :=
  ⟨by decide, hash_single_eq_wrapping_reference 42 (by decide)⟩

set_option maxRecDepth 4000 in
/-- C2 (counterexample): at `left = right = p - 1` the linear combination
    `3*left + 5*right + intermediate` exceeds `2^256`, is silently truncated
    by the `U256` arithmetic, and `hash_pair` therefore differs from the value
    claimed for the exact (untruncated) combination. -/
theorem hash_pair_truncates_linear_combination :
    PoseidonHash.hash_pair (modulus - 1) (modulus - 1) ≠
      Except.ok (PoseidonHash.hashSingleVal
        ((3 * (modulus - 1) + 5 * (modulus - 1) +
          PoseidonHash.hashSingleVal
            (((modulus - 1) + (modulus - 1) + 1) % modulus)) % modulus)) := by
  decide

/-- C2 (amended): for all `left, right < p`, `hash_pair` returns
    `hash_single((3*left + 5*right + intermediate) mod 2^256 mod p)` with
    `intermediate = hash_single((left + right + 1) mod p)`: the linear
    combination is reduced modulo `2^256` (wrapping `U256` addition and
    multiplication) before the reduction modulo `p`. -/
theorem hash_pair_eq_wrapped_combination (l r : Nat)
    (hl : l < modulus) (hr : r < modulus) :
    PoseidonHash.hash_pair l r =
      PoseidonHash.hash_single
        ((3 * l + 5 * r + PoseidonHash.hashSingleVal ((l + r + 1) % modulus))
          % U % modulus) := by
  rw [hash_pair_ok hl hr, hash_single_mod_ok]
  simp only [PoseidonHash.hashPairVal]
  rw [combined_eq hl hr, wrap_sum_eq]

/-- C2 witness: the amended theorem instantiated at `left = 1`, `right = 2`. -/
theorem hash_pair_eq_wrapped_combination_witness :
    1 < modulus ∧ 2 < modulus ∧
      PoseidonHash.hash_pair 1 2 =
        PoseidonHash.hash_single
          ((3 * 1 + 5 * 2 + PoseidonHash.hashSingleVal ((1 + 2 + 1) % modulus))
            % U % modulus) :=
  ⟨by decide, by decide, hash_pair_eq_wrapped_combination 1 2 (by decide) (by decide)⟩

/-- The left component of a concrete input pair on which `hash_pair` is
    symmetric: `c4a = c4b + ((2^256 mod p) + p) / 2`, chosen so that exactly
    one of the two argument orders overflows `2^256` in the remixing
    combination, and the two truncated combinations coincide modulo `p`. -/
def c4a : Nat :=
  21533790592154298061592713633000690356427879849199177171098389816391615119359

/-- The right component of the concrete symmetric input pair for `hash_pair`. -/
def c4b : Nat :=
  7414231717174750794300032619171286606889616317210963838766006185586667290625

/-- C4: the claim is right and the code is wrong: the spec requires
    `hash_pair(a, b) ≠ hash_pair(b, a)` for all valid `a ≠ b`, but because the
    `U256` combination `3*left + 5*right + intermediate` silently wraps modulo
    `2^256`, the concrete valid pair `(c4a, c4b)` with `c4a ≠ c4b` collides:
    both argument orders produce the same hash. -/
theorem hash_pair_symmetric_collision :
    c4a ≠ c4b ∧ c4a < modulus ∧ c4b < modulus ∧
      PoseidonHash.hash_pair c4a c4b = PoseidonHash.hash_pair c4b c4a :=
  ⟨by decide, by decide, by decide, by decide⟩

/-- C7: `validate_field_element x` returns `Ok x` unchanged exactly when
    `x < p` and fails with `FieldElementTooLarge x` exactly when `x ≥ p`;
    consequently `hash_single (p - 1)` succeeds and `hash_single p` fails with
    `FieldElementTooLarge p`. -/
theorem validate_field_element_spec :
    (∀ x : Nat,
      (PoseidonHash.validate_field_element x = .ok x ↔ x < modulus) ∧
      (PoseidonHash.validate_field_element x =
          .error (.FieldElementTooLarge x) ↔ modulus ≤ x)) ∧
    PoseidonHash.hash_single (modulus - 1) =
      .ok (PoseidonHash.hashSingleVal (modulus - 1)) ∧
    PoseidonHash.hash_single modulus =
      .error (.FieldElementTooLarge modulus) := by
  refine ⟨fun x => ⟨⟨fun h => ?_, validate_ok⟩, ⟨fun h => ?_, validate_err⟩⟩,
    hash_single_ok (by decide), hash_single_err (Nat.le_refl modulus)⟩
  · by_contra hx
    rw [validate_err (Nat.le_of_not_lt hx)] at h
    exact Except.noConfusion h
  · by_contra hx
    rw [validate_ok (Nat.lt_of_not_le hx)] at h
    exact Except.noConfusion h

/-- C7 witness: the validation equivalence instantiated at `x = 5`. -/
theorem validate_field_element_spec_witness :
    PoseidonHash.validate_field_element 5 = .ok 5 :=
  (validate_field_element_spec.1 5).1.mpr (by decide)

/-- C9: the host-contract wrapper never surfaces an error: for `x < p`,
    `PoseidonPrecompile::hash` returns exactly the `Ok` value of
    `hash_single x`, for `x ≥ p` it returns zero, and
    `PoseidonPrecompile::hash_pair` returns zero whenever either argument is
    `≥ p`. -/
theorem wrapper_masks_errors_with_zero :
    (∀ x : Nat,
      (x < modulus →
        PoseidonHash.hash_single x = .ok (PoseidonPrecompile.hash x)) ∧
      (modulus ≤ x → PoseidonPrecompile.hash x = 0)) ∧
    (∀ a b : Nat, modulus ≤ a ∨ modulus ≤ b →
      PoseidonPrecompile.hash_pair a b = 0) := by
  constructor
  · intro x
    constructor
    · intro hx
      simp [PoseidonPrecompile.hash, hash_single_ok hx]
    · intro hx
      simp [PoseidonPrecompile.hash, hash_single_err hx]
  · intro a b hab
    rcases hab with ha | hb
    · simp [PoseidonPrecompile.hash_pair, hash_pair_err_left b ha]
    · by_cases ha' : modulus ≤ a
      · simp [PoseidonPrecompile.hash_pair, hash_pair_err_left b ha']
      · simp [PoseidonPrecompile.hash_pair,
          hash_pair_err_right (Nat.lt_of_not_le ha') hb]

/-- C9 witness: the wrapper returns zero at the invalid input `p`. -/
theorem wrapper_masks_errors_with_zero_witness :
    PoseidonPrecompile.hash modulus = 0 :=
  (wrapper_masks_errors_with_zero.1 modulus).2 (Nat.le_refl modulus)

/-- C10: for every valid `x < p`, `hash_array [x]` returns `Ok x`, the input
    itself: a singleton array is never mixed or permuted. -/
theorem hash_array_singleton_identity (x : Nat) (hx : x < modulus) :
    PoseidonHash.hash_array [x] = .ok x := by
  simp [PoseidonHash.hash_array, PoseidonHash.validateAll, validate_ok hx,
    PoseidonHash.chainPairs]

/-- C10 witness: the singleton identity at `x = 5`. -/
theorem hash_array_singleton_identity_witness :
    PoseidonHash.hash_array [5] = .ok 5 :=
  hash_array_singleton_identity 5 (by decide)

/-- C3: for all valid `a, b, c < p`, `hash_array [a, b, c]` and the nested
    `hash_pair (hash_pair a b) c` succeed and return the same value: the
    left-fold chaining of `hash_array` is exactly iterated `hash_pair`. -/
theorem hash_array_three_eq_nested_hash_pair (a b c : Nat)
    (ha : a < modulus) (hb : b < modulus) (hc : c < modulus) :
    ∃ h1 h2,
      PoseidonHash.hash_pair a b = Except.ok h1 ∧
      PoseidonHash.hash_pair h1 c = Except.ok h2 ∧
      PoseidonHash.hash_array [a, b, c] = Except.ok h2 := by
  refine ⟨PoseidonHash.hashPairVal a b,
    PoseidonHash.hashPairVal (PoseidonHash.hashPairVal a b) c,
    hash_pair_ok ha hb, hash_pair_ok (hashPairVal_lt a b) hc, ?_⟩
  simp [PoseidonHash.hash_array, PoseidonHash.validateAll, PoseidonHash.chainPairs,
    validate_ok ha, validate_ok hb, validate_ok hc,
    hash_pair_ok ha hb, hash_pair_ok (hashPairVal_lt a b) hc]

/-- C3 witness: the chaining equivalence instantiated at `(1, 2, 3)`. -/
theorem hash_array_three_eq_nested_hash_pair_witness :
    ∃ h1 h2,
      PoseidonHash.hash_pair 1 2 = Except.ok h1 ∧
      PoseidonHash.hash_pair h1 3 = Except.ok h2 ∧
      PoseidonHash.hash_array [1, 2, 3] = Except.ok h2 :=
  hash_array_three_eq_nested_hash_pair 1 2 3 (by decide) (by decide) (by decide)

/-- C5: range invariant — whenever `hash_single`, `hash_pair` or `hash_array`
    returns `Ok h`, the result satisfies `h < p`: every value the engine emits
    is itself a valid field element. -/
theorem hash_outputs_are_field_elements :
    (∀ x h, PoseidonHash.hash_single x = .ok h → h < modulus) ∧
    (∀ l r h, PoseidonHash.hash_pair l r = .ok h → h < modulus) ∧
    (∀ xs h, PoseidonHash.hash_array xs = .ok h → h < modulus) := by
  refine ⟨fun x h hok => ?_, fun l r h hok => ?_, fun xs h hok => ?_⟩
  · by_cases hx : modulus ≤ x
    · rw [hash_single_err hx] at hok
      exact Except.noConfusion hok
    · rw [hash_single_ok (Nat.lt_of_not_le hx)] at hok
      cases hok
      exact hashSingleVal_lt x
  · by_cases hl : modulus ≤ l
    · rw [hash_pair_err_left r hl] at hok
      exact Except.noConfusion hok
    · by_cases hr : modulus ≤ r
      · rw [hash_pair_err_right (Nat.lt_of_not_le hl) hr] at hok
        exact Except.noConfusion hok
      · rw [hash_pair_ok (Nat.lt_of_not_le hl) (Nat.lt_of_not_le hr)] at hok
        cases hok
        exact hashPairVal_lt l r
  · match xs with
    | [] => simp [PoseidonHash.hash_array] at hok
    | y :: ys =>
      by_cases hy : modulus ≤ y
      · simp [PoseidonHash.hash_array, PoseidonHash.validateAll, validate_err hy] at hok
      · rcases hva : PoseidonHash.validateAll (y :: ys) with e | u
        · simp [PoseidonHash.hash_array, hva] at hok
        · simp only [PoseidonHash.hash_array, hva] at hok
          exact chainPairs_ok_lt ys y h (Nat.lt_of_not_le hy) hok

/-- C5 witness: the range invariant applied to the concrete call
    `hash_single 7`. -/
theorem hash_outputs_are_field_elements_witness :
    PoseidonHash.hashSingleVal 7 < modulus :=
  hash_outputs_are_field_elements.1 7 (PoseidonHash.hashSingleVal 7)
    (hash_single_ok (by decide))

/-- C8: `hash_array` on the empty slice fails with `InvalidInputLength 0`;
    on any slice whose first element `≥ p` (in order of traversal) is `x`,
    it fails with `FieldElementTooLarge x` — every element is validated
    before any pair-mixing is performed. -/
theorem hash_array_validation_errors :
    PoseidonHash.hash_array [] = .error (.InvalidInputLength 0) ∧
    ∀ (xs : List Nat) (x : Nat),
      xs.find? (fun y => decide (modulus ≤ y)) = some x →
      PoseidonHash.hash_array xs = .error (.FieldElementTooLarge x) := by
  refine ⟨rfl, fun xs x hfind => ?_⟩
  match xs with
  | [] => simp [List.find?] at hfind
  | y :: ys =>
    simp [PoseidonHash.hash_array, validateAll_err_find (y :: ys) x hfind]

/-- C8 witness: `hash_array [1, p]` fails with `FieldElementTooLarge p`,
    the first (and only) element that is not a valid field element. -/
theorem hash_array_validation_errors_witness :
    PoseidonHash.hash_array [1, modulus] =
      .error (.FieldElementTooLarge modulus) :=
  hash_array_validation_errors.2 [1, modulus] modulus (by decide)

lemma take4_selector_not_short {input sel : List Nat}
    (hsel : input.take 4 = sel) (hlen : sel.length = 4) :
    ¬ input.length < 4 := by
  intro hlt
  have hl := congrArg List.length hsel
  rw [List.length_take] at hl
  omega

set_option maxRecDepth 8000 in
/-- C6: the dispatcher fails with `InvalidSelector` on every buffer shorter
    than 4 bytes and on every buffer whose first 4 bytes match none of the
    three fixed selectors; on a recognized selector with successfully decoded
    arguments it returns the hasher's result encoded as the 32-byte big-endian
    word; in particular `selector(poseidon1) ++ abi_encode(42)` returns the
    non-zero 32-byte word encoding `hashSingleVal 42`, which decodes to a
    valid field element. -/
theorem poseidon_precompile_dispatch :
    (∀ input : List Nat, input.length < 4 →
        poseidon_precompile input = .error .InvalidSelector) ∧
    (∀ input : List Nat, 4 ≤ input.length →
        input.take 4 ≠ SELECTOR_POSEIDON1 →
        input.take 4 ≠ SELECTOR_POSEIDON2 →
        input.take 4 ≠ SELECTOR_POSEIDONN →
        poseidon_precompile input = .error .InvalidSelector) ∧
    (∀ (input : List Nat) (x : Nat),
        input.take 4 = SELECTOR_POSEIDON1 →
        decodeUint256 (input.drop 4) = .ok x →
        poseidon_precompile input = (PoseidonHash.hash_single x).map beBytes32) ∧
    (∀ (input : List Nat) (l r : Nat),
        input.take 4 = SELECTOR_POSEIDON2 →
        decodeUintPair (input.drop 4) = .ok (l, r) →
        poseidon_precompile input = (PoseidonHash.hash_pair l r).map beBytes32) ∧
    (∀ (input xs : List Nat),
        input.take 4 = SELECTOR_POSEIDONN →
        decodeUintArray (input.drop 4) = .ok xs →
        poseidon_precompile input = (PoseidonHash.hash_array xs).map beBytes32) ∧
    (poseidon_precompile (SELECTOR_POSEIDON1 ++ beBytes32 42) =
        .ok (beBytes32 (PoseidonHash.hashSingleVal 42)) ∧
      (beBytes32 (PoseidonHash.hashSingleVal 42)).length = 32 ∧
      beBytes32 (PoseidonHash.hashSingleVal 42) ≠ beBytes32 0 ∧
      beNat (beBytes32 (PoseidonHash.hashSingleVal 42)) =
        PoseidonHash.hashSingleVal 42 ∧
      PoseidonHash.hashSingleVal 42 < modulus) := by
  refine ⟨fun input hlt => ?_, fun input h4 h1 h2 h3 => ?_,
    fun input x hsel hdec => ?_, fun input l r hsel hdec => ?_,
    fun input xs hsel hdec => ?_, by decide, by decide, by decide, by decide,
    by decide⟩
  · simp [poseidon_precompile, hlt]
  · simp [poseidon_precompile, Nat.not_lt.mpr h4, h1, h2, h3]
  · simp [poseidon_precompile, take4_selector_not_short hsel rfl, hsel, hdec]
  · simp [poseidon_precompile, take4_selector_not_short hsel rfl, hsel, hdec,
      SELECTOR_POSEIDON1, SELECTOR_POSEIDON2]
  · simp [poseidon_precompile, take4_selector_not_short hsel rfl, hsel, hdec,
      SELECTOR_POSEIDON1, SELECTOR_POSEIDON2, SELECTOR_POSEIDONN]

/-- C6 witness: the dispatcher rejects the empty buffer. -/
theorem poseidon_precompile_dispatch_witness :
    poseidon_precompile [] = .error .InvalidSelector :=
  poseidon_precompile_dispatch.1 [] (by decide)
